import Mathlib

/-!
Shallow embedding of `crates/libs/core/src/event.rs`: the thread-safe
multicast event registry `Event<T>` with its copy-on-write snapshot array.

The sequential functional behaviour is modelled as follows.

* A `Delegate` is identified by its token (`Delegate::to_token` encodes the
  underlying interface pointer; all the registry logic consumes only the
  token, so the embedding carries the token itself).
* A published snapshot (`Array<T>` contents) is a `List Delegate`: the
  initialized delegate slots in index order.  Reference counts, the raw
  buffer and the two locks only matter for the concurrent memory-safety
  story, not for the sequential functional claims.
* The allocator (`heap_alloc`, reached via `Buffer::new` from
  `Array::with_capacity`) is an oracle `Heap`: a stream of success bits,
  consumed one bit per actual `malloc` call.  `Buffer::new(0)` returns a
  null buffer without touching the allocator, exactly as in the source.
* Fallible paths return `Except Int α` where the `Int` is the HRESULT
  error code.
-/

/-- HRESULT E_OUTOFMEMORY (0x8007000E as i32), produced by `heap_alloc`
when `malloc` returns null. -/
def E_OUTOFMEMORY : Int := -2147024882

/-- HRESULT RPC_E_DISCONNECTED (0x80010108 as i32).  Modelled from the spec:
the constant lives in the repository's `imp` module, outside `src/`; it is
one of the error codes classified as a target-permanently-gone signal. -/
def RPC_E_DISCONNECTED : Int := -2147417848

/-- HRESULT JSCRIPT_E_CANTEXECUTE (0x89020001 as i32).  Modelled from the
spec: the constant lives in the repository's `imp` module, outside `src/`;
it is one of the error codes classified as an owning-context-gone signal. -/
def JSCRIPT_E_CANTEXECUTE : Int := -1996357631

/-- HRESULT RPC_E_SERVER_UNAVAILABLE, defined literally in `Event::call` as
`HRESULT(-2147023174)`. -/
def RPC_E_SERVER_UNAVAILABLE : Int := -2147023174

/-- Error codes that `Event::call` treats as self-healing: the `matches!`
test on `error.code()` in the source. -/
def isSelfHealing (code : Int) : Bool :=
  code == RPC_E_DISCONNECTED || code == JSCRIPT_E_CANTEXECUTE ||
    code == RPC_E_SERVER_UNAVAILABLE

/-- One registered delegate, carried by its identity token
(`Delegate::to_token`).  Cloning a delegate (`Delegate::clone`) preserves
the token, so a snapshot copy built by `add`/`remove` carries the same
tokens in the same order. -/
structure Delegate where
  token : Int
deriving DecidableEq, Repr

/-- Allocator oracle: `ok k` says whether the k-th `malloc` performed so far
succeeds; `k` counts the `malloc` calls already made. -/
structure Heap where
  ok : Nat → Bool
  k : Nat

/-- Model of `heap_alloc`: consumes one oracle bit; a null return becomes
`E_OUTOFMEMORY`, as in the source. -/
def heapAlloc (h : Heap) : Except Int Unit × Heap :=
  (if h.ok h.k then .ok () else .error E_OUTOFMEMORY, ⟨h.ok, h.k + 1⟩)

/-- Model of `Array::with_capacity` / `Buffer::new`: capacity 0 yields a
null buffer without calling the allocator; otherwise one `heap_alloc`. -/
def withCapacity (capacity : Nat) (h : Heap) : Except Int Unit × Heap :=
  if capacity = 0 then (.ok (), h) else heapAlloc h

/-- Result of `Event::add`: the published snapshot after the call, the
allocator state, and the returned `Result<i64>` (the new token on
success). -/
structure AddResult where
  state : List Delegate
  heap : Heap
  result : Except Int Int

/-- Model of `Event::add`.  `st` is the currently published snapshot,
`mk` is the outcome of `Delegate::new(delegate)` (an external collaborator:
the capability probe plus `AgileReference::new`, which may fail with a
marshaling error).  The source allocates a snapshot of capacity
`len + 1` (always nonzero), copies the existing delegates, constructs the
new delegate, pushes it and swaps it in under the swap lock. -/
def Event.add (st : List Delegate) (h : Heap) (mk : Except Int Delegate) :
    AddResult :=
  match withCapacity (st.length + 1) h with
  | (.error e, h2) => ⟨st, h2, .error e⟩
  | (.ok (), h2) =>
    match mk with
    | .error e => ⟨st, h2, .error e⟩
    | .ok d => ⟨st ++ [d], h2, .ok d.token⟩

/-- The scan loop of `Event::remove`: walks the old snapshot, skips the
first delegate whose token matches (setting `removed`), breaks once the
new snapshot's `capacity` is exhausted, and pushes every other delegate
into the accumulator `acc` (the new snapshot being built). -/
def removeLoop (token : Int) :
    List Delegate → Nat → Bool → List Delegate → Bool × List Delegate
  | [], _, removed, acc => (removed, acc)
  | d :: rest, capacity, removed, acc =>
    if !removed && d.token == token then
      removeLoop token rest capacity true acc
    else if capacity = 0 then
      (removed, acc)
    else
      removeLoop token rest (capacity - 1) removed (acc ++ [d])

/-- Result of `Event::remove`: the published snapshot after the call, the
allocator state, the returned `Result<()>`, and whether the swap step ran
(a new snapshot was published). -/
structure RemoveResult where
  state : List Delegate
  heap : Heap
  result : Except Int Unit
  swapped : Bool

/-- Model of `Event::remove`.  Empty registry: immediate `Ok`.  Singleton
registry (`capacity == 0`): no allocation, just compare the single
delegate's token.  Otherwise: allocate capacity `len - 1` (propagating
allocation failure via `?`), run the scan loop, and swap only if a match
was removed. -/
def Event.remove (st : List Delegate) (h : Heap) (token : Int) :
    RemoveResult :=
  match st with
  | [] => ⟨st, h, .ok (), false⟩
  | d0 :: rest =>
    if rest.length = 0 then
      if d0.token == token then ⟨[], h, .ok (), true⟩
      else ⟨st, h, .ok (), false⟩
    else
      match withCapacity rest.length h with
      | (.error e, h2) => ⟨st, h2, .error e, false⟩
      | (.ok (), h2) =>
        let r := removeLoop token st rest.length false []
        if r.1 then ⟨r.2, h2, .ok (), true⟩
        else ⟨st, h2, .ok (), false⟩

/-- Result of `Event::clear`: the published snapshot after the call and
whether the swap step ran.  `clear` never touches the allocator
(`Array::new` is allocation-free), hence no `Heap` in or out. -/
structure ClearResult where
  state : List Delegate
  swapped : Bool

/-- Model of `Event::clear`: a no-op on an empty registry, otherwise swaps
in a fresh empty snapshot. -/
def Event.clear (st : List Delegate) : ClearResult :=
  if st.isEmpty then ⟨st, false⟩ else ⟨[], true⟩

/-- Result of `Event::call`: the published snapshot after the call, the
allocator state, the returned `Result<()>`, and the delegates whose
invocation (`Delegate::call`) was attempted, in order. -/
structure CallResult where
  state : List Delegate
  heap : Heap
  result : Except Int Unit
  invoked : List Delegate

/-- The iteration of `Event::call` over the cloned snapshot.  `cb d` is the
outcome of `delegate.call(&mut callback)` (resolution of an indirect
delegate followed by the callback; the `Int` is the error's code).  On a
self-healing error code the registry-level `self.remove(token)` runs and
its error propagates via `?`; any other error is discarded and the loop
continues. -/
def callLoop (cb : Delegate → Except Int Unit) :
    List Delegate → List Delegate → Heap → List Delegate → CallResult
  | [], st, h, inv => ⟨st, h, .ok (), inv⟩
  | d :: rest, st, h, inv =>
    match cb d with
    | .ok () => callLoop cb rest st h (inv ++ [d])
    | .error e =>
      if isSelfHealing e then
        match Event.remove st h d.token with
        | ⟨st2, h2, .ok (), _⟩ => callLoop cb rest st2 h2 (inv ++ [d])
        | ⟨st2, h2, .error e2, _⟩ => ⟨st2, h2, .error e2, inv ++ [d]⟩
      else
        callLoop cb rest st h (inv ++ [d])

/-- Model of `Event::call`: clone the current snapshot under the swap lock
(sequentially: the cloned list equals the published one), then iterate it
lock-free. -/
def Event.call (st : List Delegate) (cb : Delegate → Except Int Unit)
    (h : Heap) : CallResult :=
  callLoop cb st st h []

/-- Allocator oracle whose every allocation succeeds. -/
def heapAllOk : Heap := ⟨fun _ => true, 0⟩

/-- Allocator oracle whose every allocation fails. -/
def heapAllFail : Heap := ⟨fun _ => false, 0⟩

/-- The match predicate `remove` scans with: the delegate's token equals
the argument. -/
def tokenIs (t : Int) (d : Delegate) : Bool :=
  d.token == t

theorem removeLoop_removed (t : Int) :
    ∀ (l : List Delegate) (cap : Nat) (acc : List Delegate),
      removeLoop t l cap true acc = (true, acc ++ l.take cap)
  | [], _, acc => by simp [removeLoop]
  | _ :: _, 0, acc => by simp [removeLoop]
  | d :: rest, cap + 1, acc => by
    simp [removeLoop, removeLoop_removed t rest cap (acc ++ [d])]

theorem removeLoop_nomatch (t : Int) :
    ∀ (l : List Delegate) (cap : Nat) (acc : List Delegate),
      (∀ d ∈ l, tokenIs t d = false) →
      removeLoop t l cap false acc = (false, acc ++ l.take cap)
  | [], _, acc, _ => by simp [removeLoop]
  | d :: rest, cap, acc, hno => by
    have hd : (d.token == t) = false := hno d (by simp)
    match cap with
    | 0 => simp [removeLoop, hd]
    | cap + 1 =>
      have ih := removeLoop_nomatch t rest cap (acc ++ [d])
        (fun x hx => hno x (by simp [hx]))
      simp [removeLoop, hd, ih]

theorem removeLoop_match (t : Int) :
    ∀ (l : List Delegate) (cap : Nat) (acc : List Delegate),
      l.any (tokenIs t) = true → l.length ≤ cap + 1 →
      removeLoop t l cap false acc = (true, acc ++ l.eraseP (tokenIs t))
  | [], _, _, hany, _ => by simp at hany
  | d :: rest, cap, acc, hany, hlen => by
    by_cases hd : (d.token == t) = true
    · have : rest.take cap = rest :=
        List.take_of_length_le (by simpa using hlen)
      simp [removeLoop, hd, removeLoop_removed t rest cap acc,
        List.eraseP_cons_of_pos, tokenIs, this]
    · have hd' : (d.token == t) = false := by simpa using hd
      have hrest : rest.any (tokenIs t) = true := by
        simpa [tokenIs, hd'] using hany
      have hne : rest ≠ [] := by
        intro h0; rw [h0] at hrest; simp at hrest
      cases cap with
      | zero =>
        exfalso
        have hlen' : rest.length = 0 := by
          simp only [List.length_cons] at hlen
          omega
        exact hne (List.length_eq_zero.mp hlen')
      | succ cap =>
        have ih := removeLoop_match t rest cap (acc ++ [d]) hrest
          (by
            have := hlen
            simp only [List.length_cons] at this
            omega)
        simp [removeLoop, hd', ih, List.eraseP_cons_of_neg, tokenIs]

theorem remove_result_ok (st : List Delegate) (h : Heap) (t : Int)
    (hok : st.length ≤ 1 ∨ h.ok h.k = true) :
    (Event.remove st h t).result = .ok () := by
  match st with
  | [] => simp [Event.remove]
  | d0 :: rest =>
    by_cases h0 : rest.length = 0
    · by_cases hd : (d0.token == t) = true <;>
        simp [Event.remove, h0, hd]
    · have halloc : h.ok h.k = true := by
        rcases hok with hk | hk
        · exfalso
          have hk' : rest.length + 1 ≤ 1 := by
            simpa [List.length_cons] using hk
          omega
        · exact hk
      by_cases hr : (removeLoop t (d0 :: rest) rest.length false []).1 <;>
        simp [Event.remove, h0, withCapacity, heapAlloc, halloc, hr]

theorem remove_state_of_ok (st : List Delegate) (h : Heap) (t : Int)
    (hres : (Event.remove st h t).result = .ok ()) :
    (Event.remove st h t).state = st.eraseP (tokenIs t) := by
  match st with
  | [] => simp [Event.remove]
  | d0 :: rest =>
    by_cases h0 : rest.length = 0
    · have h0' : rest = [] := List.length_eq_zero.mp h0
      subst h0'
      by_cases hd : (d0.token == t) = true
      · simp [Event.remove, hd, List.eraseP_cons_of_pos, tokenIs]
      · have hd' : (d0.token == t) = false := by simpa using hd
        simp [Event.remove, hd', List.eraseP_cons_of_neg, tokenIs,
          Bool.not_eq_true]
    · by_cases halloc : h.ok h.k = true
      · by_cases hany : (d0 :: rest).any (tokenIs t) = true
        · have hloop := removeLoop_match t (d0 :: rest) rest.length []
            hany (by simp)
          simp [Event.remove, h0, withCapacity, heapAlloc, halloc, hloop]
        · have hno : ∀ d ∈ d0 :: rest, tokenIs t d = false := by
            intro d hd
            have := List.any_eq_true.not.mp hany
            push_neg at this
            simpa using this d hd
          have hloop := removeLoop_nomatch t (d0 :: rest) rest.length [] hno
          have herase : (d0 :: rest).eraseP (tokenIs t) = d0 :: rest :=
            List.eraseP_of_forall_not (by simpa using hno)
          simp [Event.remove, h0, withCapacity, heapAlloc, halloc, hloop,
            herase]
      · exfalso
        have halloc' : h.ok h.k = false := by simpa using halloc
        simp [Event.remove, h0, withCapacity, heapAlloc, halloc'] at hres

theorem remove_of_nomatch (st : List Delegate) (h : Heap) (t : Int)
    (hno : ∀ d ∈ st, tokenIs t d = false) :
    (Event.remove st h t).state = st ∧
      (Event.remove st h t).swapped = false := by
  match st with
  | [] => simp [Event.remove]
  | d0 :: rest =>
    have hd0 : (d0.token == t) = false := hno d0 (by simp)
    by_cases h0 : rest.length = 0
    · simp [Event.remove, h0, hd0]
    · by_cases halloc : h.ok h.k = true
      · have hloop := removeLoop_nomatch t (d0 :: rest) rest.length [] hno
        simp [Event.remove, h0, withCapacity, heapAlloc, halloc, hloop]
      · have halloc' : h.ok h.k = false := by simpa using halloc
        simp [Event.remove, h0, withCapacity, heapAlloc, halloc']

theorem add_of_ok (st : List Delegate) (h : Heap) (mk : Except Int Delegate)
    (t : Int) (hres : (Event.add st h mk).result = .ok t) :
    ∃ d, mk = .ok d ∧ d.token = t ∧
      (Event.add st h mk).state = st ++ [d] := by
  by_cases hk : h.ok h.k = true
  · cases mk with
    | error e => simp [Event.add, withCapacity, heapAlloc, hk] at hres
    | ok d =>
      refine ⟨d, rfl, ?_, ?_⟩
      · have := hres
        simp [Event.add, withCapacity, heapAlloc, hk] at this
        exact this
      · simp [Event.add, withCapacity, heapAlloc, hk]
  · have hk' : h.ok h.k = false := by simpa using hk
    simp [Event.add, withCapacity, heapAlloc, hk'] at hres

theorem add_of_error (st : List Delegate) (h : Heap) (mk : Except Int Delegate)
    (e : Int) (hres : (Event.add st h mk).result = .error e) :
    (Event.add st h mk).state = st := by
  by_cases hk : h.ok h.k = true
  · cases mk with
    | error e2 => simp [Event.add, withCapacity, heapAlloc, hk]
    | ok d => simp [Event.add, withCapacity, heapAlloc, hk] at hres
  · have hk' : h.ok h.k = false := by simpa using hk
    simp [Event.add, withCapacity, heapAlloc, hk']

theorem callLoop_benign (cb : Delegate → Except Int Unit) :
    ∀ (snap st : List Delegate) (h : Heap) (inv : List Delegate),
      (∀ d ∈ snap, ∀ e, cb d = .error e → isSelfHealing e = false) →
      callLoop cb snap st h inv = ⟨st, h, .ok (), inv ++ snap⟩
  | [], st, h, inv, _ => by simp [callLoop]
  | d :: rest, st, h, inv, hben => by
    have ih := callLoop_benign cb rest st h (inv ++ [d])
      (fun x hx => hben x (by simp [hx]))
    cases hcb : cb d with
    | ok u =>
      cases u
      simp [callLoop, hcb, ih]
    | error e =>
      have hsh : isSelfHealing e = false := hben d (by simp) e hcb
      simp [callLoop, hcb, hsh, ih]

theorem eraseP_nomatch_of_pairwise (st : List Delegate) (t : Int)
    (hpw : st.Pairwise (fun a b => a.token ≠ b.token)) :
    ∀ d ∈ st.eraseP (tokenIs t), tokenIs t d = false := by
  intro d hd
  by_cases hany : st.any (tokenIs t) = true
  · obtain ⟨a, ha, hpa⟩ := List.any_eq_true.mp hany
    obtain ⟨a', l₁, l₂, hl₁, hpa', heq, herase⟩ :=
      List.exists_of_eraseP ha hpa
    rw [herase] at hd
    rcases List.mem_append.mp hd with h1 | h2
    · simpa using hl₁ d h1
    · rw [heq] at hpw
      have hcross := (List.pairwise_append.mp hpw).2.1
      have hne := (List.pairwise_cons.mp hcross).1 d h2
      have ht' : a'.token = t := by simpa [tokenIs] using hpa'
      by_contra hcon
      have htd : d.token = t := by
        simpa [tokenIs] using hcon
      exact hne (by rw [ht', htd])
  · have hno : ∀ x ∈ st, ¬ tokenIs t x = true := by
      intro x hx hcon
      exact hany (List.any_eq_true.mpr ⟨x, hx, hcon⟩)
    rw [List.eraseP_of_forall_not hno] at hd
    simpa using hno d hd

/-- C2 counterexample: with two registered delegates and a failing
allocator, `remove` returns `E_OUTOFMEMORY` rather than the success value,
so `remove(token)` does not always succeed regardless of allocator
behaviour. -/
theorem C2_remove_fails_on_oom :
    (Event.remove [⟨1⟩, ⟨2⟩] heapAllFail 1).result = .error E_OUTOFMEMORY ∧
      (Event.remove [⟨1⟩, ⟨2⟩] heapAllFail 1).result ≠ .ok () :=
  ⟨rfl, fun hcon => nomatch hcon⟩

/-- C2 (amended): `remove(token)` returns the success value whenever the
registry holds at most one delegate or the single allocation it performs
succeeds; only the allocation of the replacement snapshot — needed exactly
when at least two delegates are registered — can make it fail. -/
theorem C2_remove_ok_unless_alloc_fails (st : List Delegate) (h : Heap)
    (t : Int) (hok : st.length ≤ 1 ∨ h.ok h.k = true) :
    (Event.remove st h t).result = .ok () :=
  remove_result_ok st h t hok

/-- C2 witness: removing from a two-delegate registry under a succeeding
allocator returns success. -/
theorem C2_remove_ok_witness :
    (Event.remove [⟨1⟩, ⟨2⟩] heapAllOk 1).result = .ok () :=
  C2_remove_ok_unless_alloc_fails [⟨1⟩, ⟨2⟩] heapAllOk 1 (Or.inr rfl)

/-- C3: a successful `add` publishes a snapshot consisting of the old
delegates in their original index order followed by the newly constructed
delegate (length grows by one), and returns that delegate's token. -/
theorem C3_add_appends (st : List Delegate) (h : Heap)
    (mk : Except Int Delegate) (t : Int)
    (hres : (Event.add st h mk).result = .ok t) :
    ∃ d, mk = .ok d ∧ (Event.add st h mk).state = st ++ [d] ∧
      (Event.add st h mk).state.length = st.length + 1 ∧ t = d.token := by
  obtain ⟨d, hmk, htok, hstate⟩ := add_of_ok st h mk t hres
  exact ⟨d, hmk, hstate, by simp [hstate], htok.symm⟩

/-- C3 witness: adding a delegate with token 5 to a one-delegate registry
publishes both delegates in order and returns 5. -/
theorem C3_add_appends_witness :
    ∃ d, (Except.ok ⟨5⟩ : Except Int Delegate) = .ok d ∧
      (Event.add [⟨1⟩] heapAllOk (.ok ⟨5⟩)).state = [⟨1⟩] ++ [d] ∧
      (Event.add [⟨1⟩] heapAllOk (.ok ⟨5⟩)).state.length
        = ([⟨1⟩] : List Delegate).length + 1 ∧
      (5 : Int) = d.token :=
  C3_add_appends [⟨1⟩] heapAllOk (.ok ⟨5⟩) 5 rfl

/-- C4: `remove` removes at most one delegate — the first in index order
whose token matches (`List.eraseP`) — preserving the relative order of all
others; when no delegate matches, no swap occurs and the published
snapshot is untouched. -/
theorem C4_remove_first_match (st : List Delegate) (h : Heap) (t : Int) :
    ((Event.remove st h t).result = .ok () →
      (Event.remove st h t).state = st.eraseP (tokenIs t)) ∧
    ((∀ d ∈ st, tokenIs t d = false) →
      (Event.remove st h t).state = st ∧
        (Event.remove st h t).swapped = false) :=
  ⟨remove_state_of_ok st h t, remove_of_nomatch st h t⟩

/-- C4 witness: removing token 2 from a registry with a duplicate token 2
erases only the first match; removing an absent token swaps nothing. -/
theorem C4_remove_first_match_witness :
    (Event.remove [⟨1⟩, ⟨2⟩, ⟨2⟩] heapAllOk 2).state
        = ([⟨1⟩, ⟨2⟩, ⟨2⟩] : List Delegate).eraseP (tokenIs 2) ∧
      (Event.remove [⟨1⟩, ⟨3⟩] heapAllOk 2).state = [⟨1⟩, ⟨3⟩] ∧
      (Event.remove [⟨1⟩, ⟨3⟩] heapAllOk 2).swapped = false :=
  ⟨(C4_remove_first_match [⟨1⟩, ⟨2⟩, ⟨2⟩] heapAllOk 2).1 rfl,
    (C4_remove_first_match [⟨1⟩, ⟨3⟩] heapAllOk 2).2 (by decide)⟩

/-- C5: when `add` fails — snapshot allocation or delegate construction —
the error is returned and the published snapshot is exactly what it was
before the call. -/
theorem C5_add_failure_no_change (st : List Delegate) (h : Heap)
    (mk : Except Int Delegate) (e : Int)
    (hres : (Event.add st h mk).result = .error e) :
    (Event.add st h mk).state = st :=
  add_of_error st h mk e hres

/-- C5 witness: an `add` whose delegate construction fails with error code
3 leaves the one-delegate registry unchanged. -/
theorem C5_add_failure_no_change_witness :
    (Event.add [⟨1⟩] heapAllOk (.error 3)).state = [⟨1⟩] :=
  C5_add_failure_no_change [⟨1⟩] heapAllOk (.error 3) 3 rfl

/-- C9: with more than one registered delegate and a failing allocation of
the replacement snapshot, `remove` returns the OutOfMemory error, performs
no swap, and leaves the published snapshot exactly as it was. -/
theorem C9_remove_alloc_failure (st : List Delegate) (h : Heap) (t : Int)
    (hlen : 1 < st.length) (hfail : h.ok h.k = false) :
    (Event.remove st h t).result = .error E_OUTOFMEMORY ∧
      (Event.remove st h t).state = st ∧
      (Event.remove st h t).swapped = false := by
  match st with
  | [] => simp at hlen
  | d0 :: rest =>
    have h0 : ¬ rest.length = 0 := by
      simp only [List.length_cons] at hlen
      omega
    simp [Event.remove, h0, withCapacity, heapAlloc, hfail]

/-- C9 witness: removing from a two-delegate registry under a failing
allocator returns OutOfMemory and changes nothing. -/
theorem C9_remove_alloc_failure_witness :
    (Event.remove [⟨1⟩, ⟨2⟩] heapAllFail 3).result = .error E_OUTOFMEMORY ∧
      (Event.remove [⟨1⟩, ⟨2⟩] heapAllFail 3).state = [⟨1⟩, ⟨2⟩] ∧
      (Event.remove [⟨1⟩, ⟨2⟩] heapAllFail 3).swapped = false :=
  C9_remove_alloc_failure [⟨1⟩, ⟨2⟩] heapAllFail 3 (by decide) rfl

/-- C1 counterexample: with two delegates whose invocation fails with
error code 7 — not a self-healing code — `call` still invokes both
delegates and returns success: the iteration does not stop at the first
failure and the error is not returned to the caller. -/
theorem C1_call_swallows_other_errors :
    isSelfHealing 7 = false ∧
      (Event.call [⟨1⟩, ⟨2⟩] (fun _ => .error 7) heapAllOk).result
        = .ok () ∧
      (Event.call [⟨1⟩, ⟨2⟩] (fun _ => .error 7) heapAllOk).invoked
        = [⟨1⟩, ⟨2⟩] :=
  ⟨rfl, rfl, rfl⟩

/-- C1 (amended): an invocation error not classified as self-healing is
discarded by `call`: iteration continues over all remaining delegates, the
published snapshot is untouched, and `call` returns success. -/
theorem C1_call_ignores_other_errors (st : List Delegate)
    (cb : Delegate → Except Int Unit) (h : Heap)
    (hben : ∀ d ∈ st, ∀ e, cb d = .error e → isSelfHealing e = false) :
    (Event.call st cb h).result = .ok () ∧
      (Event.call st cb h).state = st ∧
      (Event.call st cb h).invoked = st := by
  have hloop := callLoop_benign cb st st h [] hben
  simp [Event.call, hloop]

/-- C1 witness: a call whose callback always fails with code 7 still
invokes the delegate, keeps the registry intact, and returns success. -/
theorem C1_call_ignores_other_errors_witness :
    (Event.call [⟨1⟩] (fun _ => .error 7) heapAllOk).result = .ok () ∧
      (Event.call [⟨1⟩] (fun _ => .error 7) heapAllOk).state = [⟨1⟩] ∧
      (Event.call [⟨1⟩] (fun _ => .error 7) heapAllOk).invoked = [⟨1⟩] :=
  C1_call_ignores_other_errors [⟨1⟩] (fun _ => .error 7) heapAllOk
    (fun d _ e he => by
      injection he with h1
      subst h1
      decide)

/-- C6: a successful `add` immediately followed by `remove` of the
returned token, under an allocator whose next allocation succeeds, leaves
the registry's length equal to its length before the `add`. -/
theorem C6_add_remove_roundtrip (st : List Delegate) (h h' : Heap)
    (mk : Except Int Delegate) (t : Int)
    (hadd : (Event.add st h mk).result = .ok t)
    (halloc : h'.ok h'.k = true) :
    (Event.remove (Event.add st h mk).state h' t).state.length
      = st.length := by
  obtain ⟨d, hmk, htok, hstate⟩ := add_of_ok st h mk t hadd
  have hok := remove_result_ok (Event.add st h mk).state h' t (Or.inr halloc)
  have hrs := remove_state_of_ok (Event.add st h mk).state h' t hok
  rw [hrs, hstate]
  have hmem : d ∈ st ++ [d] := by simp
  have hp : tokenIs t d = true := by simp [tokenIs, htok]
  rw [List.length_eraseP_of_mem hmem hp]
  simp

/-- C6 witness: add token 5 to a one-delegate registry, then remove it:
the length is back to 1. -/
theorem C6_add_remove_roundtrip_witness :
    (Event.remove (Event.add [⟨1⟩] heapAllOk (.ok ⟨5⟩)).state
        heapAllOk 5).state.length
      = ([⟨1⟩] : List Delegate).length :=
  C6_add_remove_roundtrip [⟨1⟩] heapAllOk heapAllOk (.ok ⟨5⟩) 5 rfl rfl

/-- C7 counterexample: when the same target is registered twice, the two
delegates share a token (cloning preserves the encoded pointer), and two
consecutive removes of that token remove two delegates in total — the
second call does find a match, swaps, and changes the registry. -/
theorem C7_double_remove_removes_twice :
    (Event.remove [⟨5⟩, ⟨5⟩] heapAllOk 5).state = [⟨5⟩] ∧
      (Event.remove
          (Event.remove [⟨5⟩, ⟨5⟩] heapAllOk 5).state heapAllOk 5).state
        = [] ∧
      (Event.remove
          (Event.remove [⟨5⟩, ⟨5⟩] heapAllOk 5).state heapAllOk 5).swapped
        = true := by
  decide

/-- C7 (amended): each `remove` removes at most one delegate; provided the
registered delegates carry pairwise-distinct tokens (no target registered
twice), a second `remove` of the same token after a successful first one
finds no match and leaves the registry unchanged, performing no swap. -/
theorem C7_remove_idempotent_distinct (st : List Delegate) (h h' : Heap)
    (t : Int)
    (hpw : st.Pairwise (fun a b => a.token ≠ b.token))
    (hres : (Event.remove st h t).result = .ok ()) :
    (Event.remove (Event.remove st h t).state h' t).state
        = (Event.remove st h t).state ∧
      (Event.remove (Event.remove st h t).state h' t).swapped = false := by
  have hrs := remove_state_of_ok st h t hres
  have hno : ∀ d ∈ (Event.remove st h t).state, tokenIs t d = false := by
    rw [hrs]
    exact eraseP_nomatch_of_pairwise st t hpw
  exact remove_of_nomatch _ h' t hno

/-- C7 witness: with distinct tokens 1 and 2, removing token 2 twice
changes nothing the second time. -/
theorem C7_remove_idempotent_distinct_witness :
    (Event.remove (Event.remove [⟨1⟩, ⟨2⟩] heapAllOk 2).state
          heapAllOk 2).state
        = (Event.remove [⟨1⟩, ⟨2⟩] heapAllOk 2).state ∧
      (Event.remove (Event.remove [⟨1⟩, ⟨2⟩] heapAllOk 2).state
          heapAllOk 2).swapped = false :=
  C7_remove_idempotent_distinct [⟨1⟩, ⟨2⟩] heapAllOk heapAllOk 2
    (by decide) rfl

/-- C8: `clear` on an empty registry changes nothing and performs no swap
(it is allocation-free: its model takes and returns no allocator state);
on a non-empty registry it publishes the empty snapshot, after which a
`call` invokes no delegate at all and returns success. -/
theorem C8_clear_spec (st : List Delegate) (cb : Delegate → Except Int Unit)
    (h : Heap) (hne : st ≠ []) :
    Event.clear [] = ⟨[], false⟩ ∧
      (Event.clear st).state = [] ∧
      (Event.clear st).swapped = true ∧
      (Event.call (Event.clear st).state cb h).invoked = [] ∧
      (Event.call (Event.clear st).state cb h).result = .ok () := by
  have hemp : st.isEmpty = false := by
    cases st with
    | nil => exact absurd rfl hne
    | cons a l => rfl
  refine ⟨rfl, ?_, ?_, ?_, ?_⟩ <;>
    simp [Event.clear, hemp, Event.call, callLoop]

/-- C8 witness: clearing a one-delegate registry empties it and a
subsequent call invokes nothing. -/
theorem C8_clear_spec_witness :
    Event.clear [] = ⟨[], false⟩ ∧
      (Event.clear [⟨1⟩]).state = [] ∧
      (Event.clear [⟨1⟩]).swapped = true ∧
      (Event.call (Event.clear [⟨1⟩]).state (fun _ => .ok ())
          heapAllOk).invoked = [] ∧
      (Event.call (Event.clear [⟨1⟩]).state (fun _ => .ok ())
          heapAllOk).result = .ok () :=
  C8_clear_spec [⟨1⟩] (fun _ => .ok ()) heapAllOk (by decide)
